import Mathlib

/-!
Verification of the mat-ai message-normalization and extraction pipeline.

This file shallowly embeds the core of the repository:
  * src/matai_v2/parser.py   — body cleaning (HTML fast path, divider search);
  * src/matai_v2/processor.py — date parsing/sanitizing, action-item mapping,
    the bounded-retry extraction loop;
  * src/matai_v2/cli.py + src/matai_v2/store.py — the run pipeline with the
    processed-record store (upsert on message_id);
  * src/matai/commands/process_new_emails_command.py — the confidence gate,
    dispatch, counters and run-window update.

Python strings are modelled as List Char, datetimes as an integer count of
naive wall-clock microseconds together with an optional timezone offset, and
exceptions as an Except monad with an explicit error type.  All definitions
are executable, and all proofs go through the kernel.
-/

/-! ### Python string primitives -/

/-- Whitespace characters removed by Python's str.strip(). -/
def isPySpace (c : Char) : Bool :=
  c == ' ' || c == '\t' || c == '\n' || c == '\r' || c == '\x0b' || c == '\x0c'

/-- Model of Python str.strip(): remove leading and trailing whitespace. -/
def pyStrip (s : List Char) : List Char :=
  ((s.dropWhile isPySpace).reverse.dropWhile isPySpace).reverse

/-- Model of Python str.lower() (restricted to the character-wise case map,
which is exact for the ASCII text handled by the parser). -/
def toLowerList (s : List Char) : List Char :=
  s.map Char.toLower

/-- Model of Python str.find(needle): index of the first occurrence of
needle in hay, or none where Python returns -1. -/
def listFind? (needle : List Char) : List Char → Option Nat
  | [] => if needle.isEmpty then some 0 else none
  | c :: cs =>
    if needle.isPrefixOf (c :: cs) then some 0
    else (listFind? needle cs).map (· + 1)

/-- The needle occurs in hay starting at index i. -/
def occursAt (needle hay : List Char) (i : Nat) : Prop :=
  needle.isPrefixOf (hay.drop i) = true

instance (needle hay : List Char) (i : Nat) : Decidable (occursAt needle hay i) := by
  unfold occursAt; infer_instance

/-- Model of the Python substring test (needle in hay). -/
def listContainsSub (needle hay : List Char) : Bool :=
  (listFind? needle hay).isSome

/-! ### Datetimes

A Python datetime is modelled by its naive wall-clock reading, encoded as a
single integer (microseconds on a fixed epoch; the encoding is strictly
monotone in the lexicographic component order that Python uses to compare
naive datetimes), plus an optional timezone offset in microseconds.
datetime.replace(tzinfo=None) drops the offset and keeps the wall-clock
reading, exactly as in CPython. -/

structure PyDateTime where
  naive : Int
  tzOffset : Option Int
deriving DecidableEq

/-- Model of datetime.replace(tzinfo=None). -/
def PyDateTime.dropTz (d : PyDateTime) : PyDateTime :=
  { d with tzOffset := none }

/-- The absolute instant denoted by a timezone-aware datetime (UTC reading);
for a naive datetime this is just its wall-clock reading. -/
def PyDateTime.instant (d : PyDateTime) : Int :=
  d.naive - (d.tzOffset.getD 0)

/-- Model of EmailProcessor._sanitarize_date (src/matai_v2/processor.py,
lines 231-239; identical in src/matai/email_processing/processor.py):
a missing due date falls back to the email date, and a due date whose
naive (timezone-stripped) reading is before the email date's naive reading
is clamped to the email date. -/
def sanitarizeDate (dueDate : Option PyDateTime) (emailDate : PyDateTime) : PyDateTime :=
  match dueDate with
  | none => emailDate
  | some due =>
    let naiveDue := due.dropTz
    let naiveEmail := emailDate.dropTz
    if naiveDue.naive < naiveEmail.naive then emailDate else due

/-! ### Python exceptions -/

/-- Kinds of Python exception relevant to the embedded code.  apiError stands
for exceptions coming out of the external model client (network, HTTP,
quota); its tag distinguishes separate failures. -/
inductive PyErr where
  | valueError
  | typeError
  | jsonDecodeError
  | assertionError
  | apiError (tag : Nat)
deriving DecidableEq

def PyErr.isValueError : PyErr → Bool
  | .valueError => true
  | _ => false

/-! ### Calendar arithmetic

datetime.fromisoformat validates its components against the proleptic
Gregorian calendar; the day count below (Hinnant's civil-from-days inverse)
is the standard strictly monotone encoding of a valid (y, m, d) triple. -/

def isLeapYear (y : Nat) : Bool :=
  (y % 4 == 0 && y % 100 != 0) || y % 400 == 0

def daysInMonth (y m : Nat) : Nat :=
  if m == 2 then (if isLeapYear y then 29 else 28)
  else if m == 4 || m == 6 || m == 9 || m == 11 then 30
  else 31

/-- Days since the civil epoch 1970-01-01 of a Gregorian date (y ≥ 1). -/
def daysFromCivil (y m d : Nat) : Int :=
  let yi : Int := y
  let y2 : Int := if m ≤ 2 then yi - 1 else yi
  let era : Int := y2 / 400
  let yoe : Int := y2 - era * 400
  let mi : Int := m
  let doy : Int := (153 * (if 2 < m then mi - 3 else mi + 9) + 2) / 5 + (d : Int) - 1
  let doe : Int := yoe * 365 + yoe / 4 - yoe / 100 + doy
  era * 146097 + doe - 719468

/-- Naive microsecond reading of a civil datetime. -/
def microsOfCivil (y mo d h mi sec us : Nat) : Int :=
  (daysFromCivil y mo d) * 86400000000 + ((h * 3600 + mi * 60 + sec) * 1000000 + us : Nat)

def validYMD (y mo d : Nat) : Bool :=
  1 ≤ y && y ≤ 9999 && 1 ≤ mo && mo ≤ 12 && 1 ≤ d && d ≤ daysInMonth y mo

/-! ### datetime.fromisoformat and strptime

The processor calls two standard-library parsers.  They are external to the
repository, so they are modelled from their documented contracts:
datetime.fromisoformat accepts the strings emitted by datetime.isoformat()
(a YYYY-MM-DD date, optionally a one-character separator followed by
HH[:MM[:SS[.fff[fff]]]] and an optional ±HH:MM[:SS[.ffffff]] offset), and
datetime.strptime with format "%Y-%m-%d" accepts a bare YYYY-MM-DD date.
Both raise ValueError on any other string. -/

/-- Read exactly n leading digits into acc; fail otherwise. -/
def readDigits : Nat → Nat → List Char → Option (Nat × List Char)
  | 0, acc, s => some (acc, s)
  | _ + 1, _, [] => none
  | n + 1, acc, c :: s =>
    if c.isDigit then readDigits n (acc * 10 + (c.toNat - 48)) s else none

def natOfDigits (ds : List Char) : Nat :=
  ds.foldl (fun a c => a * 10 + (c.toNat - 48)) 0

/-- Parse HH[:MM[:SS[.fff or .ffffff]]], returning the remainder. -/
def parseHMSF (s : List Char) : Option (Nat × Nat × Nat × Nat × List Char) :=
  match readDigits 2 0 s with
  | some (h, ':' :: r2) =>
    match readDigits 2 0 r2 with
    | some (mi, ':' :: r4) =>
      match readDigits 2 0 r4 with
      | some (sec, '.' :: r6) =>
        let fracDigits := r6.takeWhile Char.isDigit
        let rest := r6.dropWhile Char.isDigit
        if fracDigits.length == 3 then some (h, mi, sec, natOfDigits fracDigits * 1000, rest)
        else if fracDigits.length == 6 then some (h, mi, sec, natOfDigits fracDigits, rest)
        else none
      | some (sec, r5) => some (h, mi, sec, 0, r5)
      | none => none
    | some (mi, r3) => some (h, mi, 0, 0, r3)
    | none => none
  | some (h, r) => some (h, 0, 0, 0, r)
  | none => none

/-- Parse the time-of-day part of an isoformat string, including the
optional UTC offset (CPython accepts offset strings of lengths 5, 8, 15:
HH:MM, HH:MM:SS, HH:MM:SS.ffffff). -/
def parseIsoTime (s : List Char) : Option (Nat × Nat × Nat × Nat × Option Int) :=
  match parseHMSF s with
  | none => none
  | some (h, mi, sec, us, rest) =>
    if h ≤ 23 && mi ≤ 59 && sec ≤ 59 then
      match rest with
      | [] => some (h, mi, sec, us, none)
      | c :: r2 =>
        if (c == '+' || c == '-') && (r2.length == 5 || r2.length == 8 || r2.length == 15) then
          match parseHMSF r2 with
          | some (oh, om, os, ous, []) =>
            if oh ≤ 23 && om ≤ 59 && os ≤ 59 then
              let mag : Int := ((oh * 3600 + om * 60 + os) * 1000000 + ous : Nat)
              some (h, mi, sec, us, some (if c == '-' then -mag else mag))
            else none
          | _ => none
        else none
    else none

/-- Parse a leading YYYY-MM-DD, returning the remainder. -/
def parseIsoDate (s : List Char) : Option (Nat × Nat × Nat × List Char) :=
  match readDigits 4 0 s with
  | some (y, '-' :: r1) =>
    match readDigits 2 0 r1 with
    | some (mo, '-' :: r2) =>
      match readDigits 2 0 r2 with
      | some (d, rest) => some (y, mo, d, rest)
      | none => none
    | _ => none
  | _ => none

/-- Model of datetime.fromisoformat. -/
def fromIsoformat (s : List Char) : Option PyDateTime :=
  match parseIsoDate s with
  | some (y, mo, d, rest) =>
    if validYMD y mo d then
      match rest with
      | [] => some ⟨microsOfCivil y mo d 0 0 0 0, none⟩
      | _sep :: timeStr =>
        match parseIsoTime timeStr with
        | some (h, mi, sec, us, off) => some ⟨microsOfCivil y mo d h mi sec us, off⟩
        | none => none
    else none
  | none => none

/-- Model of datetime.strptime(s, "%Y-%m-%d") (canonical field widths). -/
def strptimeYMD (s : List Char) : Option PyDateTime :=
  match parseIsoDate s with
  | some (y, mo, d, []) =>
    if validYMD y mo d then some ⟨microsOfCivil y mo d 0 0 0 0, none⟩ else none
  | _ => none

/-- Exception-level view of fromisoformat: invalid strings raise ValueError. -/
def fromIsoformatE (s : List Char) : Except PyErr PyDateTime :=
  match fromIsoformat s with
  | some d => .ok d
  | none => .error .valueError

/-- Exception-level view of strptime(s, "%Y-%m-%d"). -/
def strptimeYMDE (s : List Char) : Except PyErr PyDateTime :=
  match strptimeYMD s with
  | some d => .ok d
  | none => .error .valueError

/-- Model of EmailProcessor._parse_date (src/matai_v2/processor.py, lines
201-213; identical in src/matai/email_processing/processor.py).  The
argument is the raw JSON field: absent (Python None) and the empty string
are both falsy, each try/except arm catches exactly ValueError, and any
other exception would propagate. -/
def parseDateE (dateStr : Option (List Char)) : Except PyErr (Option PyDateTime) :=
  if (dateStr.getD []).isEmpty then .ok none
  else
    match fromIsoformatE (dateStr.getD []) with
    | .ok d => .ok (some d)
    | .error e =>
      if e.isValueError then
        match strptimeYMDE (dateStr.getD []) with
        | .ok d => .ok (some d)
        | .error e2 => if e2.isValueError then .ok none else .error e2
      else .error e

/-! ### Action items (src/matai_v2/processor.py) -/

/-- The closed ActionType set (src/matai_v2/processor.py, lines 15-36). -/
inductive ActionType where
  | deadline
  | task
  | meeting
  | decision
  | information
deriving DecidableEq

/-- Model of ActionType.from_string: lower-cases the text, maps the five
recognized names, and raises ValueError on anything else. -/
def ActionType.fromString (text : List Char) : Except PyErr ActionType :=
  let t := toLowerList text
  if t == "deadline".toList then .ok .deadline
  else if t == "task".toList then .ok .task
  else if t == "meeting".toList then .ok .meeting
  else if t == "decision".toList then .ok .decision
  else if t == "information".toList then .ok .information
  else .error .valueError

/-- One element of the model response's action_items array.  Fields mirror
the JSON object keys read by the processor; absent keys are none.  The
confidence field is a JSON number (the model is scoped to responses whose
confidence is numeric, on which Python's float() succeeds). -/
structure ItemJson where
  itemType : Option (List Char)
  description : Option (List Char)
  due_date : Option (List Char)
  confidence : Option Rat
deriving DecidableEq

/-- Model of the ActionItem dataclass (src/matai_v2/processor.py, lines
39-49). -/
structure ActionItem where
  action_type : ActionType
  description : List Char
  confidence_score : Rat
  message_id : List Char
  due_date : Option PyDateTime
  id : Nat := 0
deriving DecidableEq

/-- Model of EmailProcessor.map_action (src/matai_v2/processor.py, lines
241-249): item_json.get("type", "task") defaults only a missing key, then
ActionType.from_string may raise; description defaults to "", confidence
to 0. -/
def mapAction (dueDate : Option PyDateTime) (messageId : List Char) (ij : ItemJson) :
    Except PyErr ActionItem :=
  match ActionType.fromString (ij.itemType.getD ("task".toList)) with
  | .error e => .error e
  | .ok a =>
    .ok { action_type := a
          description := ij.description.getD []
          confidence_score := ij.confidence.getD 0
          message_id := messageId
          due_date := dueDate }

/-- Model of the per-item loop inside EmailProcessor._extract_action_items
(src/matai_v2/processor.py, lines 314-322).  The accumulator is the
action_items list, which in this version of the code is initialized once
before the retry loop, so items appended before a mid-list failure survive
into the next attempt; the returned Option PyErr is the exception (if any)
that aborts the current attempt. -/
def processItems (messageId : List Char) (emailDate : PyDateTime) :
    List ItemJson → List ActionItem → List ActionItem × Option PyErr
  | [], acc => (acc, none)
  | ij :: rest, acc =>
    match parseDateE ij.due_date with
    | .error e => (acc, some e)
    | .ok d0 =>
      let due := sanitarizeDate d0 emailDate
      match mapAction (some due) messageId ij with
      | .error e => (acc, some e)
      | .ok item => processItems messageId emailDate rest (acc ++ [item])

/-- Model of the retry loop of EmailProcessor._extract_action_items
(src/matai_v2/processor.py, lines 298-331).  The client function gives the
outcome of the model call on each attempt (0-based), already decoded to the
action_items array: an error covers network failure, empty content
(assert), and JSON decode failure.  remaining counts the retries still
allowed; the second component of the result is the number of client
invocations made.  -/
def extractGo (client : Nat → Except PyErr (List ItemJson)) (messageId : List Char)
    (emailDate : PyDateTime) :
    Nat → Nat → List ActionItem → Except PyErr (List ActionItem) × Nat
  | attempt, 0, acc =>
    match client attempt with
    | .error e => (.error e, attempt + 1)
    | .ok ijs =>
      match processItems messageId emailDate ijs acc with
      | (acc2, none) => (.ok acc2, attempt + 1)
      | (_, some e) => (.error e, attempt + 1)
  | attempt, r + 1, acc =>
    match client attempt with
    | .error _ => extractGo client messageId emailDate (attempt + 1) r acc
    | .ok ijs =>
      match processItems messageId emailDate ijs acc with
      | (acc2, none) => (.ok acc2, attempt + 1)
      | (acc2, some _) => extractGo client messageId emailDate (attempt + 1) r acc2

/-- Model of EmailProcessor._extract_action_items: up to max_retries + 1
attempts starting from an empty action_items list. -/
def extractActionItems (client : Nat → Except PyErr (List ItemJson)) (messageId : List Char)
    (emailDate : PyDateTime) (maxRetries : Nat) : Except PyErr (List ActionItem) × Nat :=
  extractGo client messageId emailDate 0 maxRetries []

/-! ### Processed-record store (src/matai_v2/store.py)

Timestamps in the store models are naive microsecond readings (the store
persists datetime.isoformat() strings and compares them as text; on the
uniform naive format this lexicographic order coincides with the
chronological one, so an integer reading is a faithful model). -/

/-- One row of the PROCESSED_EMAIL table. -/
structure PRecord where
  message_id : List Char
  message_date : Int
  process_state : List Char
  process_date : Int
deriving DecidableEq

/-- Model of EmailStore.store (src/matai_v2/store.py, lines 37-55):
INSERT OR REPLACE keyed on message_id — at most one row per message is
retained. -/
def storeUpsert (recs : List PRecord) (r : PRecord) : List PRecord :=
  if recs.any (fun x => x.message_id == r.message_id) then
    recs.map (fun x => if x.message_id == r.message_id then r else x)
  else recs ++ [r]

/-- Model of EmailStore.retrieve_from with no state filter (lines 57-70):
every row whose message_date is at or after the cutoff. -/
def retrieveFrom (recs : List PRecord) (cutoff : Int) : List PRecord :=
  recs.filter (fun r => cutoff ≤ r.message_date)

/-- Message metadata as used by the v2 run loop. -/
structure EmailMsg where
  message_id : List Char
  timestamp : Int
  subject : List Char
deriving DecidableEq

/-- The PROCESSED record written for a dispatched message: its id, its own
timestamp as message_date, and the processing time. -/
def mkProcessedRecord (m : EmailMsg) (now : Int) : PRecord :=
  ⟨m.message_id, m.timestamp, "PROCESSED".toList, now⟩

/-- Model of the body of the run command's loop (src/matai_v2/cli.py,
lines 99-151).  pipelineStep stands for the per-message work between the
dedup filter and the store write: body cleaning, extraction, and the
dispatch of the extracted items to the task board; it returns ok exactly
when the dispatch to the task board client succeeded.  The whole loop runs
inside one try/except, so the first exception aborts the remaining
messages.  Returns (messages dispatched in order, final store, the
aborting exception if any). -/
def runLoop (pipelineStep : EmailMsg → Except PyErr Unit) (now : Int) :
    List EmailMsg → List PRecord → List EmailMsg × List PRecord × Option PyErr
  | [], st => ([], st, none)
  | m :: rest, st =>
    match pipelineStep m with
    | .error e => ([], st, some e)
    | .ok _ =>
      let st2 := storeUpsert st (mkProcessedRecord m now)
      let out := runLoop pipelineStep now rest st2
      (m :: out.1, out.2.1, out.2.2)

/-- Model of the run command (src/matai_v2/cli.py, lines 99-151): collect
the message ids with a processed record at or after the retrieval cutoff,
filter them out of the retrieved batch, then process the remainder in
order, writing a PROCESSED record for a message only after its dispatch
succeeded. -/
def runPipeline (pipelineStep : EmailMsg → Except PyErr Unit) (cutoff now : Int)
    (emails : List EmailMsg) (st : List PRecord) :
    List EmailMsg × List PRecord × Option PyErr :=
  let processedIds := (retrieveFrom st cutoff).map (fun r => r.message_id)
  runLoop pipelineStep now (emails.filter (fun m => !(processedIds.contains m.message_id))) st

/-! ### Confidence gate and dispatcher
(src/matai/commands/process_new_emails_command.py) -/

/-- Observable outcome of one execution of ProcessNewEmailsCommand:
the tuples dispatched to the task board, the tuples persisted by
store_processed_emails, and the two aggregate counters. -/
structure RunOutcome where
  dispatched : List (EmailMsg × List ActionItem)
  stored : List (EmailMsg × List ActionItem)
  managedEmailsNum : Nat
  generatedActionItems : Nat
deriving DecidableEq

/-- The confidence gate (line 52-53 of the command): keep the items whose
confidence_score is at least the threshold. -/
def confidenceGate (threshold : Rat) (items : List ActionItem) : List ActionItem :=
  items.filter (fun x => threshold ≤ x.confidence_score)

/-- Model of the for-loop of ProcessNewEmailsCommand.execute (lines 49-63).
The batch is the lazily produced sequence of (message, items) pairs; an
error element stands for an extraction failure raised while the generator
is consumed.  createTasks is the external task-board dispatch, which may
itself raise.  Exceptions are unhandled, so the first one aborts the
loop. -/
def executeLoop (createTasks : EmailMsg → List ActionItem → Except PyErr Unit)
    (threshold : Rat) :
    List (Except PyErr (EmailMsg × List ActionItem)) → RunOutcome → Except PyErr RunOutcome
  | [], acc => .ok acc
  | .error e :: _, _ => .error e
  | .ok (em, items) :: rest, acc =>
    let filtered := confidenceGate threshold items
    if filtered.isEmpty then executeLoop createTasks threshold rest acc
    else
      match createTasks em filtered with
      | .error e => .error e
      | .ok _ =>
        executeLoop createTasks threshold rest
          { dispatched := acc.dispatched ++ [(em, filtered)]
            stored := acc.stored ++ [(em, filtered)]
            managedEmailsNum := acc.managedEmailsNum + 1
            generatedActionItems := acc.generatedActionItems + filtered.length }

/-- Model of ProcessNewEmailsCommand.execute (lines 29-75): run the
filtering/dispatch loop over the batch, and only if the whole loop finished
without an exception overwrite the run configuration's last-run time with
now.  Returns the loop outcome and the stored last-run time afterwards. -/
def executeRun (createTasks : EmailMsg → List ActionItem → Except PyErr Unit)
    (threshold : Rat) (batch : List (Except PyErr (EmailMsg × List ActionItem)))
    (now : Int) (lastRun : Option Int) : Except PyErr RunOutcome × Option Int :=
  match executeLoop createTasks threshold batch ⟨[], [], 0, 0⟩ with
  | .ok out => (.ok out, some now)
  | .error e => (.error e, lastRun)

/-- Model of the retrieval cutoff computed by EmailManager.process_new_emails
(src/matai/manager/manager.py, lines 60-64): the stored last-run time, or a
two-day fallback window on the first run. -/
def cutoffOf (lastRun : Option Int) (now : Int) : Int :=
  match lastRun with
  | none => now - 172800000000
  | some t => t

/-! ### A small regular-expression engine

The divider search of src/matai_v2/parser.py falls back to compiled
regular expressions.  They are embedded through a Brzozowski-derivative
matcher; laziness of Python's non-greedy quantifiers is irrelevant here
because only the existence and the leftmost starting position of a match
are observed. -/

inductive RE where
  | eps
  | pred (p : Char → Bool)
  | cat (a b : RE)
  | alt (a b : RE)
  | star (a : RE)

/-- The regex accepting nothing. -/
def RE.emp : RE := .pred (fun _ => false)

def RE.nullable : RE → Bool
  | .eps => true
  | .pred _ => false
  | .cat a b => a.nullable && b.nullable
  | .alt a b => a.nullable || b.nullable
  | .star _ => true

def RE.deriv : RE → Char → RE
  | .eps, _ => RE.emp
  | .pred p, c => if p c then .eps else RE.emp
  | .cat a b, c =>
    if a.nullable then .alt (.cat (a.deriv c) b) (b.deriv c) else .cat (a.deriv c) b
  | .alt a b, c => .alt (a.deriv c) (b.deriv c)
  | .star a, c => .cat (a.deriv c) (.star a)

/-- Does some prefix of s (possibly empty) match r? -/
def RE.matchesPre : RE → List Char → Bool
  | r, [] => r.nullable
  | r, c :: cs => r.nullable || (r.deriv c).matchesPre cs

def reFindGo (r : RE) : List Char → Nat → Option Nat
  | [], i => if r.matchesPre [] then some i else none
  | c :: cs, i => if r.matchesPre (c :: cs) then some i else reFindGo r cs (i + 1)

/-- Model of pattern.search(s).start(): the leftmost index at which a match
of r begins, if any. -/
def reFind? (r : RE) (s : List Char) : Option Nat :=
  reFindGo r s 0

/-- Case-insensitive single character (re.IGNORECASE). -/
def charCI (c : Char) : RE := .pred (fun x => x.toLower == c.toLower)

/-- Case-insensitive literal string. -/
def litCI (s : String) : RE :=
  s.toList.foldr (fun c r => RE.cat (charCI c) r) RE.eps

/-- A single literal character (used where case cannot matter). -/
def chrLit (c : Char) : RE := .pred (fun x => x == c)

/-- The regex dot: any character except a newline (no DOTALL flag). -/
def reDot : RE := .pred (fun c => c != '\n')

/-- Language of .* and of the non-greedy .*? alike. -/
def dotStar : RE := .star reDot

def reOpt (r : RE) : RE := .alt r .eps

def rePlus (r : RE) : RE := .cat r (.star r)

/-- Character class excluding one character, such as the regex form
open-bracket caret c close-bracket; unlike the dot it matches newlines. -/
def notChar (c : Char) : RE := .pred (fun x => x != c)

def reDigit : RE := .pred Char.isDigit

def reTimes : Nat → RE → RE
  | 0, _ => .eps
  | n + 1, r => .cat r (reTimes n r)

def reSeq (l : List RE) : RE := l.foldr RE.cat RE.eps

/-- Three or more dashes. -/
def dashes3 : RE := .cat (reTimes 3 (chrLit '-')) (.star (chrLit '-'))

/-- A Python pattern as used by the parser: either a plain regex, or one
prefixed by the multiline line-start group matching the caret-or-newline
alternation.  With re.MULTILINE, that group matches zero-width at the text
start or just after a newline, or consumes a newline; the leftmost match
start over all alternatives equals the mapped position of the leftmost
match of newline-then-body over the text with a sentinel newline
prepended. -/
inductive PyPattern where
  | plain (r : RE)
  | lineStart (r : RE)

def PyPattern.search (p : PyPattern) (s : List Char) : Option Nat :=
  match p with
  | .plain r => reFind? r s
  | .lineStart r =>
    match reFind? (.cat (chrLit '\n') r) ('\n' :: s) with
    | none => none
    | some 0 => some 0
    | some (i + 1) => some i

/-! ### Divider patterns (src/matai_v2/parser.py, lines 8-43)

Each entry below transcribes, in order, one element of DIVIDER_PATTERNS;
all are compiled with re.IGNORECASE and re.MULTILINE. -/

def dividerPatterns : List PyPattern :=
  [ -- From:.*?(?:<[^>]+>)?.*?(?:Date:.*?)?To:.*?(?:Cc:.*?)?Subject:
    .plain (reSeq [litCI "From:", dotStar,
      reOpt (reSeq [chrLit '<', rePlus (notChar '>'), chrLit '>']), dotStar,
      reOpt (.cat (litCI "Date:") dotStar), litCI "To:", dotStar,
      reOpt (.cat (litCI "Cc:") dotStar), litCI "Subject:"]),
    -- From:.*?(?:<[^>]+>)?.*?To:.*?(?:Cc:.*?)?Subject:
    .plain (reSeq [litCI "From:", dotStar,
      reOpt (reSeq [chrLit '<', rePlus (notChar '>'), chrLit '>']), dotStar,
      litCI "To:", dotStar, reOpt (.cat (litCI "Cc:") dotStar), litCI "Subject:"]),
    -- From:\n
    .plain (.cat (litCI "From:") (chrLit '\n')),
    -- Sent:\n
    .plain (.cat (litCI "Sent:") (chrLit '\n')),
    -- To:\n
    .plain (.cat (litCI "To:") (chrLit '\n')),
    -- Subject:\n
    .plain (.cat (litCI "Subject:") (chrLit '\n')),
    -- Da:.*?Inviato:.*?A:.*?Oggetto:
    .plain (reSeq [litCI "Da:", dotStar, litCI "Inviato:", dotStar,
      litCI "A:", dotStar, litCI "Oggetto:"]),
    -- Il.*?ha scritto:
    .plain (reSeq [litCI "Il", dotStar, litCI "ha scritto:"]),
    -- Messaggio inoltrato:
    .plain (litCI "Messaggio inoltrato:"),
    -- In data:.*?ha scritto:
    .plain (reSeq [litCI "In data:", dotStar, litCI "ha scritto:"]),
    -- From:.*?Sent:.*?To:.*?Subject:
    .plain (reSeq [litCI "From:", dotStar, litCI "Sent:", dotStar,
      litCI "To:", dotStar, litCI "Subject:"]),
    -- On.*?wrote:
    .plain (reSeq [litCI "On", dotStar, litCI "wrote:"]),
    -- Begin forwarded message:
    .plain (litCI "Begin forwarded message:"),
    -- -{3,}Original Message-{3,}
    .plain (reSeq [dashes3, litCI "Original Message", dashes3]),
    -- -{3,}Messaggio originale-{3,}
    .plain (reSeq [dashes3, litCI "Messaggio originale", dashes3]),
    -- From:.*?\[mailto:.*?\]
    .plain (reSeq [litCI "From:", dotStar, chrLit '[', litCI "mailto:", dotStar, chrLit ']']),
    -- Da:.*?\[mailto:.*?\]
    .plain (reSeq [litCI "Da:", dotStar, chrLit '[', litCI "mailto:", dotStar, chrLit ']']),
    -- >.*?(?:wrote|ha scritto):
    .plain (reSeq [chrLit '>', dotStar, .alt (litCI "wrote") (litCI "ha scritto"), chrLit ':']),
    -- (?:^|\n)>
    .lineStart (chrLit '>'),
    -- (?:^|\n)Il giorno.*?(?:<.*?>)?ha scritto:
    .lineStart (reSeq [litCI "Il giorno", dotStar,
      reOpt (reSeq [chrLit '<', dotStar, chrLit '>']), litCI "ha scritto:"]),
    -- From:.*?<[^>]+>.*?(?:Date|Data):.*?(?:To|A):.*?(?:Cc:.*?)?(?:Subject|Oggetto):
    .plain (reSeq [litCI "From:", dotStar, chrLit '<', rePlus (notChar '>'), chrLit '>',
      dotStar, .alt (litCI "Date") (litCI "Data"), chrLit ':', dotStar,
      .alt (litCI "To") (litCI "A"), chrLit ':', dotStar,
      reOpt (.cat (litCI "Cc:") dotStar), .alt (litCI "Subject") (litCI "Oggetto"), chrLit ':'])
  ]

/-- The regex compiled inside _find_first_divider for the
On date comma name wrote: attribution (parser.py, line 298). -/
def onDatePattern : RE :=
  reSeq [litCI "On ", reTimes 4 reDigit, chrLit '-', reTimes 2 reDigit, chrLit '-',
    reTimes 2 reDigit, litCI ", ", dotStar, litCI " wrote:"]

/-! ### The divider search (src/matai_v2/parser.py, lines 238-317) -/

/-- The single entry of exact_patterns (line 254). -/
def exactReplyMarker : List Char := "wrote:\nPrevious message".toList

/-- The fast_markers list (lines 264-282), transcribed in order; the long
entry is a run of 32 underscores. -/
def fastMarkers : List (List Char) :=
  [ "\nFrom:".toList,
    "\nSent:".toList,
    "\nTo:".toList,
    "\nSubject:".toList,
    "\nDa:".toList,
    "\nInviato:".toList,
    "\nA:".toList,
    "\nOggetto:".toList,
    "Original Message".toList,
    "Messaggio originale".toList,
    "Begin forwarded message".toList,
    "Messaggio inoltrato".toList,
    "On 2025-02-13".toList,
    "On 20".toList,
    "wrote:".toList,
    "________________________________".toList,
    "\n> ".toList ]

/-- The marker loop of _find_first_divider: scan the markers in order,
keeping the smallest position found so far (positions equal to Python's
find() result; -1 results are skipped). -/
def markerScan (text : List Char) : List (List Char) → Nat → Nat
  | [], acc => acc
  | m :: ms, acc =>
    match listFind? m text with
    | some p => markerScan text ms (if p < acc then p else acc)
    | none => markerScan text ms acc

/-- The fast-marker scan: minimum position over every fast marker found in
the search text, starting from the sentinel value length + 1
(min_position = max_search_length + 1 in the source). -/
def fastMarkerMin (searchText : List Char) : Nat :=
  markerScan searchText fastMarkers (searchText.length + 1)

/-- First pattern in list order that matches anywhere in s; its leftmost
match position is returned (this is the order-dependent fallback loop of
_find_first_divider). -/
def searchPatterns : List PyPattern → List Char → Option Nat
  | [], _ => none
  | p :: ps, s =>
    match p.search s with
    | some i => some i
    | none => searchPatterns ps s

/-- Model of _find_first_divider with the default lazy=False
(src/matai_v2/parser.py, lines 238-317): texts shorter than 10 characters
are rejected; the search text is capped at 10000 characters; the exact
reply marker takes precedence; then the minimum over the fast substring
markers; then the On-date regex; then the compiled divider patterns in
list order; finally, for texts longer than the cap, the first three
compiled patterns over the whole text. -/
def findFirstDivider (text : List Char) : Option Nat :=
  if text.length < 10 then none
  else
    let searchText := text.take 10000
    match listFind? exactReplyMarker searchText with
    | some pos => some pos
    | none =>
      let minPos := fastMarkerMin searchText
      if minPos < searchText.length + 1 then some minPos
      else
        match reFind? onDatePattern searchText with
        | some i => some i
        | none =>
          match searchPatterns dividerPatterns searchText with
          | some i => some i
          | none =>
            if 10000 < text.length then searchPatterns (dividerPatterns.take 3) text
            else none

/-! ### HTML normalization and clean_body (src/matai_v2/parser.py) -/

/-- The html_indicators list of _convert_html_to_text (line 57). -/
def htmlIndicators : List (List Char) :=
  [ "<html".toList, "<body".toList, "<div".toList, "<span".toList,
    "<p ".toList, "<br".toList, "<table".toList ]

/-- The html_tag_pattern regex (line 63, compiled without flags):
an angle-bracketed tag starting with an ASCII letter. -/
def htmlTagRE : RE :=
  reSeq [chrLit '<', .pred (fun c => ('a' ≤ c && c ≤ 'z') || ('A' ≤ c && c ≤ 'Z')),
    .star (notChar '>'), chrLit '>']

/-- Stand-in for the HTML-reduction branch of _convert_html_to_text
(lines 67-170).  That branch feeds the text to the external BeautifulSoup
parser (and PrettyTable for tables), so its output is determined by an
external library outside the embedded fragment.  Every theorem in this
file constrains its inputs to the fast paths, on which
_convert_html_to_text provably returns its input unchanged, so this
branch is never exercised by any proof; it is modelled as the identity. -/
def htmlHeavyReduce (text : List Char) : List Char := text

/-- Model of _convert_html_to_text (src/matai_v2/parser.py, lines 46-170):
the fast paths return the input unchanged when no angle brackets are
present, or when no HTML indicator substring occurs in the lower-cased
text and the tag regex finds no match. -/
def convertHtmlToText (text : List Char) : List Char :=
  if !(listContainsSub "<".toList text) || !(listContainsSub ">".toList text) then text
  else
    let lowered := toLowerList text
    let hasHtml := htmlIndicators.any (fun ind => listContainsSub ind lowered)
    if !hasHtml then
      if (reFind? htmlTagRE text).isNone then text else htmlHeavyReduce text
    else htmlHeavyReduce text

/-- Model of clean_body (src/matai_v2/parser.py, lines 319-345): empty
input gives the empty string; otherwise the HTML-normalized text is cut
strictly before the divider position when one is found, and the result is
stripped of leading and trailing whitespace. -/
def cleanBody (body : List Char) : List Char :=
  if body.isEmpty then []
  else
    let cleanedHtml := convertHtmlToText body
    match findFirstDivider cleanedHtml with
    | some p => pyStrip (pyStrip (cleanedHtml.take p))
    | none => pyStrip cleanedHtml

/-! ### Derived specification functions and concrete fixtures -/

/-- Specification-side characterization of what the dispatcher sends:
for each pair, gate the items; keep the pair (with gated items) exactly
when the gated set is non-empty. -/
def dispatchGate (threshold : Rat) (pairs : List (EmailMsg × List ActionItem)) :
    List (EmailMsg × List ActionItem) :=
  pairs.filterMap (fun p =>
    let f := confidenceGate threshold p.2
    if f.isEmpty then none else some (p.1, f))

/-- Total number of items across a list of dispatched pairs. -/
def sumLens (l : List (EmailMsg × List ActionItem)) : Nat :=
  (l.map (fun p => p.2.length)).sum

/-- A task-board dispatch that always succeeds. -/
def ctAlwaysOk : EmailMsg → List ActionItem → Except PyErr Unit :=
  fun _ _ => .ok ()

/-- Concrete send date 2025-02-20 00:00 naive. -/
def fxDate : PyDateTime := ⟨1740009600000000, none⟩

/-- Concrete datetime 2025-02-21 00:00 naive. -/
def fxDate2 : PyDateTime := ⟨1740096000000000, none⟩

/-- A well-formed response item with no due date. -/
def fxGoodIJ1 : ItemJson :=
  ⟨some "task".toList, some "first".toList, none, some (1/2)⟩

/-- A response item whose type string is outside the recognized set. -/
def fxBadIJ : ItemJson :=
  ⟨some "note".toList, some "bad".toList, some "2025-02-20".toList, some (9/10)⟩

/-- A well-formed response item with a bare-date due date. -/
def fxGoodIJ2 : ItemJson :=
  ⟨some "task".toList, some "second".toList, some "2025-02-21".toList, some (19/20)⟩

/-- The ActionItem produced from fxGoodIJ1 with send date fxDate. -/
def fxItem1 : ActionItem :=
  ⟨.task, "first".toList, 1/2, "m1".toList, some fxDate, 0⟩

/-- The ActionItem produced from fxGoodIJ2 with send date fxDate. -/
def fxItem2 : ActionItem :=
  ⟨.task, "second".toList, 19/20, "m1".toList, some fxDate2, 0⟩

/-- A model client whose first attempt returns a response that fails
midway through item mapping (fxBadIJ) after one good item, and whose
second attempt succeeds. -/
def fxLeakClient : Nat → Except PyErr (List ItemJson) :=
  fun n => if n == 0 then .ok [fxGoodIJ1, fxBadIJ] else .ok [fxGoodIJ2]

/-- A model client raising on attempts 0 and 1 and succeeding on attempt 2
(the 1-indexed scenario: failures on attempts 1 and 2, success on 3). -/
def fxRetryClient : Nat → Except PyErr (List ItemJson) :=
  fun n => if n < 2 then .error (.apiError n) else .ok [fxGoodIJ2]

/-- A timezone-aware due date: wall clock 10:00, offset +05:00, so the
denoted instant is 05:00 UTC. -/
def fxAwareDue : PyDateTime := ⟨36000000000, some 18000000000⟩

/-- A timezone-aware send date: wall clock 09:00, offset +00:00, so the
denoted instant is 09:00 UTC. -/
def fxAwareSend : PyDateTime := ⟨32400000000, some 0⟩

/-- A plain-text body in which the exact reply marker occurs after an
earlier fast marker. -/
def fxC2Body : List Char :=
  "Hello team here\nFrom:\nOld stuff somebody wrote:\nPrevious message end".toList

/-- The body of Scenario A of the specification. -/
def fxScenABody : List Char :=
  "Hi,\nPlease send the report by Friday.\nFrom:\nOld thread...".toList

/-- A plain-text body with surrounding whitespace and no divider. -/
def fxC6Body : List Char := "  hello everyone today  ".toList

/-- A concrete email message. -/
def fxEmailA : EmailMsg := ⟨"a".toList, 100, "s".toList⟩

/-- A second concrete email message. -/
def fxEmailB : EmailMsg := ⟨"b".toList, 150, "t".toList⟩

/-- An item below a 0.5 threshold. -/
def fxItem03 : ActionItem := ⟨.task, "low".toList, 3/10, "e1".toList, none, 0⟩

/-- An item above a 0.5 threshold. -/
def fxItem06 : ActionItem := ⟨.task, "high".toList, 6/10, "e1".toList, none, 0⟩

/-! ## Theorems -/

/-! ### C3 — date sanitizer -/

/-- C3 (counterexample): the claim reads sanitize as comparing the dates
chronologically, but the code compares them with timezone information
removed.  fxAwareDue denotes the instant 05:00 UTC and fxAwareSend the
instant 09:00 UTC, so the due date is chronologically earlier than the
send date and the claim requires sanitize to return the send date; the
code keeps the due date because its wall-clock reading 10:00 is not
before 09:00. -/
theorem C3_counterexample :
    fxAwareDue.instant < fxAwareSend.instant ∧
    sanitarizeDate (some fxAwareDue) fxAwareSend = fxAwareDue ∧
    fxAwareDue ≠ fxAwareSend := by
  refine ⟨by decide, by decide, by decide⟩

/-- C3 (amended): sanitize(None, send_date) = send_date always; for a
present due date the comparison is performed on the timezone-stripped
wall-clock readings: an earlier reading is clamped to send_date, otherwise
the due date is returned unchanged.  For timezone-free datetimes this
wall-clock comparison coincides with the chronological one, giving the
claim exactly as stated. -/
theorem C3_amended :
    (∀ s : PyDateTime, sanitarizeDate none s = s) ∧
    (∀ d s : PyDateTime,
      (d.dropTz.naive < s.dropTz.naive → sanitarizeDate (some d) s = s) ∧
      (s.dropTz.naive ≤ d.dropTz.naive → sanitarizeDate (some d) s = d)) ∧
    (∀ d s : PyDateTime, d.tzOffset = none → s.tzOffset = none →
      ((d.instant < s.instant → sanitarizeDate (some d) s = s) ∧
       (s.instant ≤ d.instant → sanitarizeDate (some d) s = d))) := by
  refine ⟨fun s => rfl, fun d s => ⟨fun h => ?_, fun h => ?_⟩, fun d s hd hs => ⟨fun h => ?_, fun h => ?_⟩⟩
  · simp [sanitarizeDate, PyDateTime.dropTz] at h ⊢
    simp [h]
  · simp [sanitarizeDate, PyDateTime.dropTz] at h ⊢
    omega
  · simp [PyDateTime.instant, hd, hs] at h
    simp [sanitarizeDate, PyDateTime.dropTz, h]
  · simp [PyDateTime.instant, hd, hs] at h
    simp [sanitarizeDate, PyDateTime.dropTz]
    omega

/-- C3 (witness): the amended theorem applied at the concrete naive dates
2025-02-20 and 2025-02-21. -/
theorem C3_witness :
    sanitarizeDate (some fxDate) fxDate2 = fxDate2 ∧
    sanitarizeDate (some fxDate2) fxDate = fxDate2 :=
  ⟨(C3_amended.2.2 fxDate fxDate2 rfl rfl).1 (by decide),
   (C3_amended.2.2 fxDate2 fxDate rfl rfl).2 (by decide)⟩

/-! ### C5 — action-type mapping -/

/-- C5 (counterexample): an item whose type field is present but outside
the recognized set does not default to task; ActionType.from_string raises
ValueError out of map_action.  The string "note" is outside
{deadline, task, meeting, decision, information}. -/
theorem C5_counterexample :
    toLowerList ("note".toList) ∉
      ["deadline".toList, "task".toList, "meeting".toList,
       "decision".toList, "information".toList] ∧
    mapAction none ("m1".toList) fxBadIJ = .error .valueError := by
  refine ⟨by decide, by rfl⟩

/-- C5 (amended): a missing type field defaults to "task" and maps to
ActionType.task without raising; a present type string lowering to one of
the five recognized names maps to that constructor; a present type string
outside the recognized set makes ActionType.from_string, and hence
map_action, raise ValueError instead of defaulting. -/
theorem C5_amended :
    (∀ dd m ij, ij.itemType = none →
      mapAction dd m ij = .ok ⟨.task, ij.description.getD [], ij.confidence.getD 0, m, dd, 0⟩) ∧
    (∀ s, toLowerList s ∉
        ["deadline".toList, "task".toList, "meeting".toList,
         "decision".toList, "information".toList] →
      ActionType.fromString s = .error .valueError) ∧
    (∀ dd m ij s, ij.itemType = some s → ActionType.fromString s = .error .valueError →
      mapAction dd m ij = .error .valueError) ∧
    (∀ dd m ij s a, ij.itemType = some s → ActionType.fromString s = .ok a →
      ∃ item, mapAction dd m ij = .ok item ∧ item.action_type = a) := by
  refine ⟨?_, ?_, ?_, ?_⟩
  · rintro dd m ⟨ty, dsc, du, cf⟩ h
    subst h
    rfl
  · intro s h
    simp at h
    obtain ⟨h1, h2, h3, h4, h5⟩ := h
    simp [ActionType.fromString, h1, h2, h3, h4, h5]
  · rintro dd m ⟨ty, dsc, du, cf⟩ s h hf
    subst h
    simp [mapAction, hf]
  · rintro dd m ⟨ty, dsc, du, cf⟩ s a h hf
    subst h
    refine ⟨⟨a, dsc.getD [], cf.getD 0, m, dd, 0⟩, ?_, rfl⟩
    simp [mapAction, hf]

/-- C5 (witness): the amended theorem applied to an item with no type
field. -/
theorem C5_witness :
    mapAction none ("m".toList) ⟨none, none, none, none⟩ =
      .ok ⟨.task, [], 0, "m".toList, none, 0⟩ :=
  C5_amended.1 none ("m".toList) ⟨none, none, none, none⟩ rfl

/-! ### C9 — due-date parsing never raises -/

/-- C9: _parse_date never propagates an exception: for every string it
returns normally, succeeding exactly when datetime.fromisoformat accepts
the string (full ISO timestamps and bare dates) or, failing that, when
strptime with format %Y-%m-%d accepts it; every other string (including
the empty string and an absent field) yields no date.  Concrete instances:
a full ISO timestamp and a bare date parse, while garbage and a
slash-separated date yield none. -/
theorem C9_parse_date_total :
    (∀ s, parseDateE (some s) =
      .ok (match fromIsoformat s with
           | some d => some d
           | none => strptimeYMD s)) ∧
    parseDateE none = .ok none ∧
    parseDateE (some []) = .ok none ∧
    parseDateE (some ("2025-02-20T15:30:00".toList)) = .ok (some ⟨1740065400000000, none⟩) ∧
    parseDateE (some ("2025-02-20".toList)) = .ok (some fxDate) ∧
    parseDateE (some ("not a date".toList)) = .ok none ∧
    parseDateE (some ("20/02/2025".toList)) = .ok none := by
  refine ⟨?_, rfl, rfl, by rfl, by rfl, by rfl, by rfl⟩
  intro s
  rcases s with _ | ⟨c, cs⟩
  · rfl
  · show parseDateE (some (c :: cs)) = _
    rcases hf : fromIsoformat (c :: cs) with _ | d
    · rcases hst : strptimeYMD (c :: cs) with _ | d2
      · simp [parseDateE, fromIsoformatE, strptimeYMDE, hf, hst, PyErr.isValueError]
      · simp [parseDateE, fromIsoformatE, strptimeYMDE, hf, hst, PyErr.isValueError]
    · simp [parseDateE, fromIsoformatE, hf]

/-! ### C4 — retry loop; C10 — due-date invariant -/

lemma extractGo_ok {client : Nat → Except PyErr (List ItemJson)} {m : List Char}
    {d : PyDateTime} {a rem : Nat} {acc : List ActionItem} {ijs : List ItemJson}
    {items : List ActionItem} (h1 : client a = .ok ijs)
    (h2 : processItems m d ijs acc = (items, none)) :
    extractGo client m d a rem acc = (.ok items, a + 1) := by
  cases rem with
  | zero => simp only [extractGo, h1, h2]
  | succ r => simp only [extractGo, h1, h2]

lemma extractGo_err_step {client : Nat → Except PyErr (List ItemJson)} {m : List Char}
    {d : PyDateTime} {a r : Nat} {acc : List ActionItem} {e : PyErr}
    (h : client a = .error e) :
    extractGo client m d a (r + 1) acc = extractGo client m d (a + 1) r acc := by
  simp only [extractGo, h]

lemma extractGo_err_last {client : Nat → Except PyErr (List ItemJson)} {m : List Char}
    {d : PyDateTime} {a : Nat} {acc : List ActionItem} {e : PyErr}
    (h : client a = .error e) :
    extractGo client m d a 0 acc = (.error e, a + 1) := by
  simp only [extractGo, h]

lemma extractGo_partial_step {client : Nat → Except PyErr (List ItemJson)} {m : List Char}
    {d : PyDateTime} {a r : Nat} {acc acc2 : List ActionItem} {ijs : List ItemJson}
    {e : PyErr} (h1 : client a = .ok ijs)
    (h2 : processItems m d ijs acc = (acc2, some e)) :
    extractGo client m d a (r + 1) acc = extractGo client m d (a + 1) r acc2 := by
  simp only [extractGo, h1, h2]

lemma extractGo_succeeds (client : Nat → Except PyErr (List ItemJson)) (m : List Char)
    (d : PyDateTime) :
    ∀ i a rem acc ijs items, i ≤ rem →
      (∀ j, j < i → ∃ e, client (a + j) = .error e) →
      client (a + i) = .ok ijs →
      processItems m d ijs acc = (items, none) →
      extractGo client m d a rem acc = (.ok items, a + i + 1) := by
  intro i
  induction i with
  | zero =>
    intro a rem acc ijs items _ _ hok hpi
    rw [Nat.add_zero] at hok
    rw [extractGo_ok hok hpi]
  | succ i ih =>
    intro a rem acc ijs items hle herr hok hpi
    obtain ⟨e, he⟩ := herr 0 (Nat.succ_pos i)
    rw [Nat.add_zero] at he
    obtain ⟨r, rfl⟩ : ∃ r, rem = r + 1 := ⟨rem - 1, by omega⟩
    rw [extractGo_err_step he]
    have herr2 : ∀ j, j < i → ∃ e2, client (a + 1 + j) = .error e2 := by
      intro j hj
      have := herr (j + 1) (by omega)
      rwa [show a + (j + 1) = a + 1 + j by omega] at this
    have hok2 : client (a + 1 + i) = .ok ijs := by
      rwa [show a + (i + 1) = a + 1 + i by omega] at hok
    have := ih (a + 1) r acc ijs items (by omega) herr2 hok2 hpi
    rwa [show a + 1 + i + 1 = a + (i + 1) + 1 by omega] at this

lemma extractGo_all_fail (client : Nat → Except PyErr (List ItemJson)) (m : List Char)
    (d : PyDateTime) (ef : Nat → PyErr) :
    ∀ rem a acc,
      (∀ j, j ≤ rem → client (a + j) = .error (ef (a + j))) →
      extractGo client m d a rem acc = (.error (ef (a + rem)), a + rem + 1) := by
  intro rem
  induction rem with
  | zero =>
    intro a acc h
    have := h 0 (Nat.le_refl 0)
    rw [Nat.add_zero] at this ⊢
    rw [extractGo_err_last this]
  | succ r ih =>
    intro a acc h
    have h0 := h 0 (Nat.zero_le _)
    rw [Nat.add_zero] at h0
    rw [extractGo_err_step h0]
    have h2 : ∀ j, j ≤ r → client (a + 1 + j) = .error (ef (a + 1 + j)) := by
      intro j hj
      have := h (j + 1) (by omega)
      rwa [show a + (j + 1) = a + 1 + j by omega] at this
    have := ih (a + 1) acc h2
    rw [show a + 1 + r = a + (r + 1) by omega] at this
    exact this

/-- C4 (amended): the extraction loop invokes the model client once per
attempt.  When every earlier attempt fails at the model call itself
(before any item is parsed) and attempt i (0-based) succeeds, the items
parsed from attempt i are returned and the client was invoked exactly
i + 1 times — in particular, failures on the first two attempts followed
by success on the third with max_retries = 3 give exactly 3 invocations.
When every attempt fails, the error of the last attempt propagates to the
caller.  However, the action_items accumulator is initialized once before
the retry loop, so an attempt that fails midway through parsing its items
retains the items already appended, and the next attempt continues on top
of them (third conjunct); the original claim's assertion that exactly the
successful attempt's items are returned fails in that case. -/
theorem C4_retry_amended :
    (∀ (client : Nat → Except PyErr (List ItemJson)) msgId d maxR i ijs items,
      i ≤ maxR →
      (∀ j, j < i → ∃ e, client j = .error e) →
      client i = .ok ijs →
      processItems msgId d ijs [] = (items, none) →
      extractActionItems client msgId d maxR = (.ok items, i + 1)) ∧
    (∀ (client : Nat → Except PyErr (List ItemJson)) msgId d maxR (ef : Nat → PyErr),
      (∀ j, j ≤ maxR → client j = .error (ef j)) →
      extractActionItems client msgId d maxR = (.error (ef maxR), maxR + 1)) ∧
    (∀ (client : Nat → Except PyErr (List ItemJson)) msgId d a r acc ijs acc2 e,
      client a = .ok ijs →
      processItems msgId d ijs acc = (acc2, some e) →
      extractGo client msgId d a (r + 1) acc = extractGo client msgId d (a + 1) r acc2) := by
  refine ⟨?_, ?_, ?_⟩
  · intro client msgId d maxR i ijs items hle herr hok hpi
    have := extractGo_succeeds client msgId d i 0 maxR [] ijs items hle
      (by intro j hj; simpa using herr j hj) (by simpa using hok) hpi
    simpa [extractActionItems] using this
  · intro client msgId d maxR ef h
    have := extractGo_all_fail client msgId d ef maxR 0 []
      (by intro j hj; simpa using h j hj)
    simpa [extractActionItems] using this
  · intro client msgId d a r acc ijs acc2 e h1 h2
    exact extractGo_partial_step h1 h2

/-- C4 (counterexample): with a first attempt that parses one item and
then fails on an unrecognized type, and a successful second attempt, the
extraction succeeds on attempt 2 after exactly 2 client invocations but
returns the leftover item of the failed first attempt in addition to the
items parsed from the successful attempt — not the successful attempt's
items alone, as the claim states. -/
theorem C4_counterexample :
    extractActionItems fxLeakClient ("m1".toList) fxDate 3 = (.ok [fxItem1, fxItem2], 2) ∧
    processItems ("m1".toList) fxDate [fxGoodIJ2] [] = ([fxItem2], none) ∧
    ([fxItem1, fxItem2] : List ActionItem) ≠ [fxItem2] := by
  refine ⟨by rfl, by rfl, by decide⟩

/-- C4 (witness): the amended theorem at Scenario D — client raising on
attempts 1 and 2 (0-based 0 and 1) and succeeding on attempt 3, with
max_retries = 3: the parsed items of attempt 3 are returned and the client
was invoked exactly 3 times. -/
theorem C4_witness :
    extractActionItems fxRetryClient ("m1".toList) fxDate 3 = (.ok [fxItem2], 3) :=
  C4_retry_amended.1 fxRetryClient ("m1".toList) fxDate 3 2 [fxGoodIJ2] [fxItem2]
    (by omega)
    (fun j hj => ⟨.apiError j, by simp [fxRetryClient, hj]⟩)
    (by rfl)
    (by rfl)

lemma sanitarize_naive_ge (o : Option PyDateTime) (d : PyDateTime) :
    d.dropTz.naive ≤ (sanitarizeDate o d).dropTz.naive := by
  rcases o with _ | x
  · exact le_refl _
  · simp only [sanitarizeDate, PyDateTime.dropTz]
    split
    · exact le_refl _
    · omega

lemma mapAction_ok_due {dd : Option PyDateTime} {m : List Char} {ij : ItemJson}
    {item : ActionItem} (h : mapAction dd m ij = .ok item) : item.due_date = dd := by
  unfold mapAction at h
  rcases hfs : ActionType.fromString (ij.itemType.getD ("task".toList)) with e | a
  · rw [hfs] at h; cases h
  · rw [hfs] at h
    injection h with h2
    subst h2
    rfl

lemma processItems_due_inv (m : List Char) (dd : PyDateTime) :
    ∀ ijs acc,
      (∀ it ∈ acc, ∃ x, it.due_date = some x ∧ dd.dropTz.naive ≤ x.dropTz.naive) →
      ∀ it ∈ (processItems m dd ijs acc).1,
        ∃ x, it.due_date = some x ∧ dd.dropTz.naive ≤ x.dropTz.naive := by
  intro ijs
  induction ijs with
  | nil =>
    intro acc hacc it hit
    simp only [processItems] at hit
    exact hacc it hit
  | cons ij rest ih =>
    intro acc hacc it hit
    rcases hp : parseDateE ij.due_date with e | d0
    · simp only [processItems, hp] at hit
      exact hacc it hit
    · rcases hm : mapAction (some (sanitarizeDate d0 dd)) m ij with e | item0
      · simp only [processItems, hp, hm] at hit
        exact hacc it hit
      · simp only [processItems, hp, hm] at hit
        refine ih (acc ++ [item0]) ?_ it hit
        intro it2 hit2
        rcases List.mem_append.mp hit2 with h2 | h2
        · exact hacc it2 h2
        · have : it2 = item0 := by simpa using h2
          subst this
          refine ⟨sanitarizeDate d0 dd, mapAction_ok_due hm, sanitarize_naive_ge d0 dd⟩

lemma extractGo_due_inv (client : Nat → Except PyErr (List ItemJson)) (m : List Char)
    (dd : PyDateTime) :
    ∀ rem a acc items n,
      (∀ it ∈ acc, ∃ x, it.due_date = some x ∧ dd.dropTz.naive ≤ x.dropTz.naive) →
      extractGo client m dd a rem acc = (.ok items, n) →
      ∀ it ∈ items, ∃ x, it.due_date = some x ∧ dd.dropTz.naive ≤ x.dropTz.naive := by
  intro rem
  induction rem with
  | zero =>
    intro a acc items n hacc heq
    rcases hc : client a with e | ijs
    · simp [extractGo, hc] at heq
    · rcases hpi : processItems m dd ijs acc with ⟨acc2, _ | e⟩
      · simp only [extractGo, hc, hpi] at heq
        have hi : acc2 = items := by
          have := congrArg Prod.fst heq
          simpa using this
        subst hi
        have := processItems_due_inv m dd ijs acc hacc
        rw [hpi] at this
        exact this
      · simp [extractGo, hc, hpi] at heq
  | succ r ih =>
    intro a acc items n hacc heq
    rcases hc : client a with e | ijs
    · rw [extractGo_err_step hc] at heq
      exact ih (a + 1) acc items n hacc heq
    · rcases hpi : processItems m dd ijs acc with ⟨acc2, _ | e⟩
      · rw [extractGo_ok hc hpi] at heq
        have hi : acc2 = items := by
          have := congrArg Prod.fst heq
          simpa using this
        subst hi
        have := processItems_due_inv m dd ijs acc hacc
        rw [hpi] at this
        exact this
      · rw [extractGo_partial_step hc hpi] at heq
        refine ih (a + 1) acc2 items n ?_ heq
        have := processItems_due_inv m dd ijs acc hacc
        rw [hpi] at this
        exact this

/-- C10: every action item returned by a successful extraction carries a
present due date whose timezone-stripped reading is at or after the
message's send date — the sanitizer runs on every parsed item, so the
optional due_date field is never left empty by extraction. -/
theorem C10_due_date_invariant :
    ∀ (client : Nat → Except PyErr (List ItemJson)) msgId d maxR items n,
      extractActionItems client msgId d maxR = (.ok items, n) →
      ∀ it ∈ items, ∃ dd, it.due_date = some dd ∧ d.dropTz.naive ≤ dd.dropTz.naive := by
  intro client msgId d maxR items n h
  exact extractGo_due_inv client msgId d maxR 0 [] items n (by simp) h

/-- C10 (witness): the invariant applied to a concrete successful
extraction whose single item has due date 2025-02-21 against send date
2025-02-20. -/
theorem C10_witness :
    ∃ dd, fxItem2.due_date = some dd ∧ fxDate.dropTz.naive ≤ dd.dropTz.naive :=
  C10_due_date_invariant (fun _ => .ok [fxGoodIJ2]) ("m1".toList) fxDate 0 [fxItem2] 1
    (by rfl) fxItem2 (by simp)

/-! ### C7 — confidence gate and counters; C8 — run-window update -/

lemma executeLoop_ok_spec (thr : Rat) :
    ∀ pairs (acc : RunOutcome),
      executeLoop ctAlwaysOk thr (pairs.map Except.ok) acc =
        .ok ⟨acc.dispatched ++ dispatchGate thr pairs,
             acc.stored ++ dispatchGate thr pairs,
             acc.managedEmailsNum + (dispatchGate thr pairs).length,
             acc.generatedActionItems + sumLens (dispatchGate thr pairs)⟩ := by
  intro pairs
  induction pairs with
  | nil => intro acc; simp [executeLoop, dispatchGate, sumLens]
  | cons p rest ih =>
    rcases p with ⟨em, items⟩
    intro acc
    by_cases hf : (confidenceGate thr items).isEmpty
    · have hf2 : confidenceGate thr items = [] := by
        simpa [List.isEmpty_iff] using hf
      have hg : dispatchGate thr ((em, items) :: rest) = dispatchGate thr rest := by
        simp [dispatchGate, List.filterMap_cons, hf2]
      have hstep : executeLoop ctAlwaysOk thr ((Except.ok (em, items)) :: rest.map Except.ok) acc
          = executeLoop ctAlwaysOk thr (rest.map Except.ok) acc := by
        simp [executeLoop, hf]
      rw [List.map_cons, hstep, ih acc, hg]
    · have hf2 : ¬ confidenceGate thr items = [] := by
        simpa [List.isEmpty_iff] using hf
      have hg : dispatchGate thr ((em, items) :: rest)
          = (em, confidenceGate thr items) :: dispatchGate thr rest := by
        simp [dispatchGate, List.filterMap_cons, hf2]
      have hstep : executeLoop ctAlwaysOk thr ((Except.ok (em, items)) :: rest.map Except.ok) acc
          = executeLoop ctAlwaysOk thr (rest.map Except.ok)
              ⟨acc.dispatched ++ [(em, confidenceGate thr items)],
               acc.stored ++ [(em, confidenceGate thr items)],
               acc.managedEmailsNum + 1,
               acc.generatedActionItems + (confidenceGate thr items).length⟩ := by
        simp [executeLoop, hf, ctAlwaysOk]
      rw [List.map_cons, hstep, ih, hg]
      simp only [Except.ok.injEq, RunOutcome.mk.injEq, List.append_assoc, List.singleton_append,
        List.length_cons, sumLens, List.map_cons, List.sum_cons]
      exact ⟨trivial, trivial, by omega, by omega⟩

lemma executeLoop_error_of_mem (ct : EmailMsg → List ActionItem → Except PyErr Unit)
    (thr : Rat) :
    ∀ batch (acc : RunOutcome) (e : PyErr), Except.error e ∈ batch →
      ∃ e2, executeLoop ct thr batch acc = .error e2 := by
  intro batch
  induction batch with
  | nil => intro acc e h; cases h
  | cons x rest ih =>
    intro acc e hmem
    rcases x with e0 | ⟨em, items⟩
    · exact ⟨e0, by simp [executeLoop]⟩
    · have hrest : Except.error e ∈ rest := by
        rcases List.mem_cons.mp hmem with h | h
        · cases h
        · exact h
      by_cases hf : (confidenceGate thr items).isEmpty
      · obtain ⟨e2, h2⟩ := ih acc e hrest
        exact ⟨e2, by simp [executeLoop, hf, h2]⟩
      · rcases hct : ct em (confidenceGate thr items) with e1 | u
        · exact ⟨e1, by simp [executeLoop, hf, hct]⟩
        · obtain ⟨e2, h2⟩ := ih ⟨acc.dispatched ++ [(em, confidenceGate thr items)],
            acc.stored ++ [(em, confidenceGate thr items)],
            acc.managedEmailsNum + 1,
            acc.generatedActionItems + (confidenceGate thr items).length⟩ e hrest
          exact ⟨e2, by simp [executeLoop, hf, hct, h2]⟩

lemma executeLoop_ok_of_all_ok (ct : EmailMsg → List ActionItem → Except PyErr Unit)
    (thr : Rat) (hct : ∀ em f, ct em f = .ok ()) :
    ∀ (pairs : List (EmailMsg × List ActionItem)) (acc : RunOutcome), ∃ out,
      executeLoop ct thr (pairs.map Except.ok) acc = .ok out := by
  intro pairs
  induction pairs with
  | nil => intro acc; exact ⟨acc, by simp [executeLoop]⟩
  | cons p rest ih =>
    rcases p with ⟨em, items⟩
    intro acc
    by_cases hf : (confidenceGate thr items).isEmpty
    · obtain ⟨out, h⟩ := ih acc
      exact ⟨out, by simp [executeLoop, hf, h]⟩
    · obtain ⟨out, h⟩ := ih ⟨acc.dispatched ++ [(em, confidenceGate thr items)],
        acc.stored ++ [(em, confidenceGate thr items)],
        acc.managedEmailsNum + 1,
        acc.generatedActionItems + (confidenceGate thr items).length⟩
      exact ⟨out, by simp [executeLoop, hf, hct, h]⟩

/-- C7: over a batch of (message, items) pairs, the dispatcher dispatches
and persists exactly the messages whose threshold-filtered item set is
non-empty, paired with exactly that filtered set; the run counters count
each qualifying message once and each qualifying item once.  A pair is
dispatched iff its filtered set is non-empty.  With threshold 0.5 and item
confidences 0.3 and 0.6, only the 0.6 item is retained and the counters
read 1 qualifying message and 1 qualifying item. -/
theorem C7_dispatch_gate :
    (∀ (thr : Rat) pairs (now : Int) lastRun,
      executeRun ctAlwaysOk thr (pairs.map Except.ok) now lastRun =
        (.ok ⟨dispatchGate thr pairs, dispatchGate thr pairs,
              (dispatchGate thr pairs).length, sumLens (dispatchGate thr pairs)⟩, some now)) ∧
    (∀ (thr : Rat) pairs em f, (em, f) ∈ dispatchGate thr pairs ↔
      ∃ items, (em, items) ∈ pairs ∧ f = confidenceGate thr items ∧ f ≠ []) ∧
    (executeRun ctAlwaysOk (1/2) ([(fxEmailA, [fxItem03, fxItem06])].map Except.ok) 777 none =
      (.ok ⟨[(fxEmailA, [fxItem06])], [(fxEmailA, [fxItem06])], 1, 1⟩, some 777)) := by
  refine ⟨?_, ?_, ?_⟩
  · intro thr pairs now lastRun
    unfold executeRun
    rw [executeLoop_ok_spec thr pairs ⟨[], [], 0, 0⟩]
    simp
  · intro thr pairs em f
    constructor
    · intro h
      simp only [dispatchGate, List.mem_filterMap] at h
      obtain ⟨⟨a, b⟩, hab, hg⟩ := h
      by_cases hb : (confidenceGate thr b).isEmpty
      · simp [hb] at hg
      · simp only [hb, if_neg, Bool.false_eq_true, not_false_iff, ite_false,
          Option.some.injEq, Prod.mk.injEq] at hg
        obtain ⟨ha, hf2⟩ := hg
        subst ha
        refine ⟨b, hab, hf2.symm, ?_⟩
        rw [← hf2]
        simpa [List.isEmpty_iff] using hb
    · rintro ⟨items, hmem, rfl, hne⟩
      simp only [dispatchGate, List.mem_filterMap]
      refine ⟨(em, items), hmem, ?_⟩
      have : (confidenceGate thr items).isEmpty = false := by
        simpa [List.isEmpty_iff] using hne
      simp [List.isEmpty_iff] at this
      simp [this]
  · have h1 : confidenceGate (1/2) [fxItem03, fxItem06] = [fxItem06] := by
      simp only [confidenceGate, List.filter, fxItem03, fxItem06]
      norm_num
    have hg : dispatchGate (1/2) [(fxEmailA, [fxItem03, fxItem06])] = [(fxEmailA, [fxItem06])] := by
      simp only [dispatchGate, List.filterMap_cons, List.filterMap_nil]
      rw [h1]
      simp
    unfold executeRun
    rw [executeLoop_ok_spec (1/2) [(fxEmailA, [fxItem03, fxItem06])] ⟨[], [], 0, 0⟩, hg]
    simp [sumLens]

/-- C8: the stored run-window timestamp is overwritten with "now" only
after every message in the batch has been handled: if an unrecovered
exception is raised anywhere in the batch (either by the generator while
producing a pair, or by the task-board dispatch), the run aborts with that
exception and the stored last-run value — hence the next run's retrieval
cutoff — is unchanged; if every element is produced and every dispatch
succeeds, the run ends with the timestamp set to now. -/
theorem C8_run_window :
    (∀ ct (thr : Rat) batch (now : Int) lastRun e, Except.error e ∈ batch →
      (∃ e2, executeRun ct thr batch now lastRun = (.error e2, lastRun)) ∧
      cutoffOf (executeRun ct thr batch now lastRun).2 now = cutoffOf lastRun now) ∧
    (∀ ct (thr : Rat) (pairs : List (EmailMsg × List ActionItem)) (now : Int) lastRun,
      (∀ em f, ct em f = .ok ()) →
      ∃ out, executeRun ct thr (pairs.map Except.ok) now lastRun = (.ok out, some now)) := by
  constructor
  · intro ct thr batch now lastRun e hmem
    obtain ⟨e2, h2⟩ := executeLoop_error_of_mem ct thr batch ⟨[], [], 0, 0⟩ e hmem
    have hrun : executeRun ct thr batch now lastRun = (.error e2, lastRun) := by
      unfold executeRun
      rw [h2]
    exact ⟨⟨e2, hrun⟩, by rw [hrun]⟩
  · intro ct thr pairs now lastRun hct
    obtain ⟨out, h⟩ := executeLoop_ok_of_all_ok ct thr hct pairs ⟨[], [], 0, 0⟩
    refine ⟨out, ?_⟩
    unfold executeRun
    rw [h]

/-- C8 (witness): a batch whose second element raises leaves a concrete
stored timestamp untouched. -/
theorem C8_witness :
    (∃ e2, executeRun ctAlwaysOk (1/2)
        [Except.ok (fxEmailA, [fxItem06]), Except.error PyErr.jsonDecodeError]
        999 (some 5) = (.error e2, some 5)) ∧
    cutoffOf (executeRun ctAlwaysOk (1/2)
        [Except.ok (fxEmailA, [fxItem06]), Except.error PyErr.jsonDecodeError]
        999 (some 5)).2 999 = cutoffOf (some 5) 999 :=
  C8_run_window.1 ctAlwaysOk (1/2)
    [Except.ok (fxEmailA, [fxItem06]), Except.error PyErr.jsonDecodeError]
    999 (some 5) PyErr.jsonDecodeError (by simp)

/-! ### C1 — at-most-once dispatch across runs -/

lemma storeUpsert_mem_self (st : List PRecord) (r : PRecord) : r ∈ storeUpsert st r := by
  unfold storeUpsert
  split
  · next h =>
    obtain ⟨x, hx, hbeq⟩ := List.any_eq_true.mp h
    refine List.mem_map.mpr ⟨x, hx, ?_⟩
    simp only [hbeq, if_pos]
  · exact List.mem_append.mpr (Or.inr (List.mem_singleton.mpr rfl))

lemma storeUpsert_mem_other {st : List PRecord} {r x : PRecord} (hx : x ∈ st)
    (hne : x.message_id ≠ r.message_id) : x ∈ storeUpsert st r := by
  unfold storeUpsert
  split
  · refine List.mem_map.mpr ⟨x, hx, ?_⟩
    have : (x.message_id == r.message_id) = false := by
      simpa using hne
    simp [this]
  · exact List.mem_append.mpr (Or.inl hx)

lemma storeUpsert_mem_inv {st : List PRecord} {r x : PRecord}
    (h : x ∈ storeUpsert st r) : x ∈ st ∨ x = r := by
  unfold storeUpsert at h
  split at h
  · obtain ⟨y, hy, hxy⟩ := List.mem_map.mp h
    by_cases hb : (y.message_id == r.message_id) = true
    · right
      rw [if_pos hb] at hxy
      exact hxy.symm
    · left
      rw [if_neg hb] at hxy
      exact hxy ▸ hy
  · rcases List.mem_append.mp h with h2 | h2
    · exact Or.inl h2
    · exact Or.inr (List.mem_singleton.mp h2)

lemma runLoop_dispatched_sub (step : EmailMsg → Except PyErr Unit) (now : Int) :
    ∀ emails st, ∀ m ∈ (runLoop step now emails st).1, m ∈ emails := by
  intro emails
  induction emails with
  | nil => intro st m hm; simp [runLoop] at hm
  | cons m0 rest ih =>
    intro st m hm
    rcases hs : step m0 with e | u
    · simp [runLoop, hs] at hm
    · simp only [runLoop, hs] at hm
      rcases List.mem_cons.mp hm with h | h
      · exact h ▸ List.mem_cons_self m0 rest
      · exact List.mem_cons_of_mem m0 (ih _ m h)

lemma runLoop_step_ok (step : EmailMsg → Except PyErr Unit) (now : Int) :
    ∀ emails st, ∀ m ∈ (runLoop step now emails st).1, step m = .ok () := by
  intro emails
  induction emails with
  | nil => intro st m hm; simp [runLoop] at hm
  | cons m0 rest ih =>
    intro st m hm
    rcases hs : step m0 with e | u
    · simp [runLoop, hs] at hm
    · simp only [runLoop, hs] at hm
      rcases List.mem_cons.mp hm with h | h
      · subst h
        cases u
        exact hs
      · exact ih _ m h

lemma runLoop_preserve (step : EmailMsg → Except PyErr Unit) (now : Int) :
    ∀ emails st x, x ∈ st → (∀ m ∈ emails, m.message_id ≠ x.message_id) →
      x ∈ (runLoop step now emails st).2.1 := by
  intro emails
  induction emails with
  | nil => intro st x hx _; simpa [runLoop] using hx
  | cons m0 rest ih =>
    intro st x hx hne
    rcases hs : step m0 with e | u
    · simpa [runLoop, hs] using hx
    · simp only [runLoop, hs]
      refine ih _ x ?_ ?_
      · exact storeUpsert_mem_other hx
          (fun h => hne m0 (List.mem_cons_self m0 rest) h.symm)
      · exact fun m hm => hne m (List.mem_cons_of_mem m0 hm)

lemma runLoop_record (step : EmailMsg → Except PyErr Unit) (now : Int) :
    ∀ emails st m, (emails.map (fun e => e.message_id)).Nodup →
      m ∈ (runLoop step now emails st).1 →
      mkProcessedRecord m now ∈ (runLoop step now emails st).2.1 := by
  intro emails
  induction emails with
  | nil => intro st m _ hm; simp [runLoop] at hm
  | cons m0 rest ih =>
    intro st m hnd hm
    rcases hs : step m0 with e | u
    · simp [runLoop, hs] at hm
    · simp only [runLoop, hs] at hm ⊢
      have hnd2 := hnd
      rw [List.map_cons, List.nodup_cons] at hnd2
      rcases List.mem_cons.mp hm with h | h
      · subst h
        refine runLoop_preserve step now rest _ _ (storeUpsert_mem_self _ _) ?_
        intro m2 hm2 hid
        apply hnd2.1
        rw [show (mkProcessedRecord m now).message_id = m.message_id from rfl] at hid
        exact hid ▸ List.mem_map.mpr ⟨m2, hm2, rfl⟩
      · exact ih _ m hnd2.2 h

lemma runLoop_new_records (step : EmailMsg → Except PyErr Unit) (now : Int) :
    ∀ emails st x, x ∈ (runLoop step now emails st).2.1 →
      x ∈ st ∨ ∃ m, m ∈ (runLoop step now emails st).1 ∧ step m = .ok () ∧
        x = mkProcessedRecord m now := by
  intro emails
  induction emails with
  | nil => intro st x hx; exact Or.inl (by simpa [runLoop] using hx)
  | cons m0 rest ih =>
    intro st x hx
    rcases hs : step m0 with e | u
    · exact Or.inl (by simpa [runLoop, hs] using hx)
    · simp only [runLoop, hs] at hx ⊢
      rcases ih _ x hx with h | ⟨m, hm, hok, hxr⟩
      · rcases storeUpsert_mem_inv h with h2 | h2
        · exact Or.inl h2
        · refine Or.inr ⟨m0, List.mem_cons_self m0 _, ?_, h2⟩
          cases u
          exact hs
      · exact Or.inr ⟨m, List.mem_cons_of_mem m0 hm, hok, hxr⟩

/-- C1: at-most-once dispatch.  First conjunct: a message dispatched by a
run never had a processed record at or after that run's cutoff (the dedup
filter runs before any per-message work, so such messages are excluded
before extraction).  Second conjunct: every record in the store after a
run either was there before or is the PROCESSED record of a message whose
dispatch succeeded (records are written only after a successful dispatch).
Third conjunct: if a run over id-distinct messages dispatched m, then a
re-run over any window containing m's timestamp dispatches no message with
m's identifier again — the upserted PROCESSED record keyed on message_id is
found by the pre-check. -/
theorem C1_at_most_once :
    (∀ step (cutoff now : Int) emails st,
      ∀ m ∈ (runPipeline step cutoff now emails st).1,
        m.message_id ∉ (retrieveFrom st cutoff).map (fun r => r.message_id)) ∧
    (∀ step (cutoff now : Int) emails st x,
      x ∈ (runPipeline step cutoff now emails st).2.1 →
        x ∈ st ∨ ∃ m, m ∈ (runPipeline step cutoff now emails st).1 ∧
          step m = .ok () ∧ x = mkProcessedRecord m now) ∧
    (∀ step1 step2 (cutoff1 cutoff2 now1 now2 : Int) emails1 emails2 st0 m,
      (emails1.map (fun e => e.message_id)).Nodup →
      m ∈ (runPipeline step1 cutoff1 now1 emails1 st0).1 →
      cutoff2 ≤ m.timestamp →
      ((runPipeline step2 cutoff2 now2 emails2
          (runPipeline step1 cutoff1 now1 emails1 st0).2.1).1.filter
        (fun m2 => m2.message_id == m.message_id)) = []) := by
  have hfiltered : ∀ step (cutoff now : Int) emails (st : List PRecord),
      ∀ m ∈ (runPipeline step cutoff now emails st).1,
        m.message_id ∉ (retrieveFrom st cutoff).map (fun r => r.message_id) := by
    intro step cutoff now emails st m hm
    simp only [runPipeline] at hm
    have hsub := runLoop_dispatched_sub _ _ _ _ m hm
    have hcond := (List.mem_filter.mp hsub).2
    intro hmem
    have h2 : (((retrieveFrom st cutoff).map (fun r => r.message_id)).contains
        m.message_id) = true :=
      List.contains_iff_exists_mem_beq.mpr ⟨m.message_id, hmem, by simp⟩
    rw [h2] at hcond
    simp at hcond
  refine ⟨hfiltered, ?_, ?_⟩
  · intro step cutoff now emails st x hx
    exact runLoop_new_records step now _ st x hx
  · intro step1 step2 cutoff1 cutoff2 now1 now2 emails1 emails2 st0 m hnd hm hwin
    have hnd2 : ((emails1.filter (fun m2 =>
        !(((retrieveFrom st0 cutoff1).map (fun r => r.message_id)).contains
          m2.message_id))).map (fun e => e.message_id)).Nodup :=
      List.Nodup.sublist (List.Sublist.map _ (List.filter_sublist emails1)) hnd
    simp only [runPipeline] at hm
    have hrec0 := runLoop_record step1 now1 _ st0 m hnd2 hm
    have hrec : mkProcessedRecord m now1 ∈ (runPipeline step1 cutoff1 now1 emails1 st0).2.1 := by
      simp only [runPipeline]
      exact hrec0
    set st1 := (runPipeline step1 cutoff1 now1 emails1 st0).2.1 with hst1
    have hretr : mkProcessedRecord m now1 ∈ retrieveFrom st1 cutoff2 := by
      refine List.mem_filter.mpr ⟨hrec, ?_⟩
      simpa [mkProcessedRecord] using hwin
    have hid : m.message_id ∈ (retrieveFrom st1 cutoff2).map (fun r => r.message_id) :=
      List.mem_map.mpr ⟨mkProcessedRecord m now1, hretr, rfl⟩
    refine List.filter_eq_nil_iff.mpr ?_
    intro m2 hm2
    have h2 := hfiltered step2 cutoff2 now2 emails2 st1 m2 hm2
    intro hbeq
    have heq2 : m2.message_id = m.message_id := by simpa using hbeq
    exact h2 (heq2 ▸ hid)

/-- C1 (witness): a concrete message dispatched by a first run over an
empty store is excluded by a second run whose window still contains it. -/
theorem C1_witness :
    ((runPipeline (fun _ => Except.ok ()) 50 300 [fxEmailA]
        (runPipeline (fun _ => Except.ok ()) 0 200 [fxEmailA] []).2.1).1.filter
      (fun m2 => m2.message_id == fxEmailA.message_id)) = [] :=
  C1_at_most_once.2.2 (fun _ => Except.ok ()) (fun _ => Except.ok ())
    0 50 200 300 [fxEmailA] [fxEmailA] [] fxEmailA
    (by simp) (by decide) (by decide)

/-! ### C2, C6 — body cleaning -/

lemma listFind?_occursAt (n : List Char) :
    ∀ (h : List Char) (i : Nat), listFind? n h = some i → occursAt n h i := by
  intro h
  induction h with
  | nil =>
    intro i hf
    simp only [listFind?] at hf
    by_cases hn : n.isEmpty
    · rw [if_pos hn] at hf
      obtain rfl : (0 : Nat) = i := by injection hf
      have hn2 : n = [] := by simpa [List.isEmpty_iff] using hn
      subst hn2
      rfl
    · rw [if_neg hn] at hf
      cases hf
  | cons c cs ih =>
    intro i hf
    simp only [listFind?] at hf
    by_cases hp : n.isPrefixOf (c :: cs)
    · rw [if_pos hp] at hf
      obtain rfl : (0 : Nat) = i := by injection hf
      exact hp
    · rw [if_neg hp] at hf
      obtain ⟨j, hj, rfl⟩ := Option.map_eq_some'.mp hf
      exact ih j hj

lemma occursAt_listFind? (n : List Char) :
    ∀ (h : List Char) (q : Nat), occursAt n h q →
      ∃ i, listFind? n h = some i ∧ i ≤ q := by
  intro h
  induction h with
  | nil =>
    intro q hq
    have hn : n = [] := by simpa [occursAt] using hq
    subst hn
    exact ⟨0, by simp [listFind?], Nat.zero_le q⟩
  | cons c cs ih =>
    intro q hq
    by_cases hp : n.isPrefixOf (c :: cs)
    · exact ⟨0, by simp [listFind?, hp], Nat.zero_le q⟩
    · cases q with
      | zero => exact absurd hq hp
      | succ q0 =>
        have hq2 : occursAt n cs q0 := hq
        obtain ⟨i, hfi, hle⟩ := ih q0 hq2
        refine ⟨i + 1, ?_, by omega⟩
        simp [listFind?, hp, hfi]

lemma occursAt_lt_length {n h : List Char} {i : Nat} (hn : n ≠ [])
    (ho : occursAt n h i) : i < h.length := by
  by_contra hge
  push_neg at hge
  have hdrop : h.drop i = [] := List.drop_eq_nil_iff.mpr hge
  rw [occursAt, hdrop] at ho
  exact hn (List.prefix_nil.mp (List.isPrefixOf_iff_prefix.mp ho))

lemma markerScan_le_acc (t : List Char) :
    ∀ ms acc, markerScan t ms acc ≤ acc := by
  intro ms
  induction ms with
  | nil => intro acc; simp [markerScan]
  | cons m ms ih =>
    intro acc
    rcases hf : listFind? m t with _ | p
    · simpa only [markerScan, hf] using ih acc
    · simp only [markerScan, hf]
      by_cases hp : p < acc
      · rw [if_pos hp]
        exact le_trans (ih p) (le_of_lt hp)
      · rw [if_neg hp]
        exact ih acc

lemma markerScan_le_found (t : List Char) :
    ∀ ms acc m p, m ∈ ms → listFind? m t = some p → markerScan t ms acc ≤ p := by
  intro ms
  induction ms with
  | nil => intro acc m p hm; cases hm
  | cons m0 ms ih =>
    intro acc m p hm hf
    rcases List.mem_cons.mp hm with rfl | hm2
    · simp only [markerScan, hf]
      by_cases hp : p < acc
      · rw [if_pos hp]
        exact markerScan_le_acc t ms p
      · rw [if_neg hp]
        exact le_trans (markerScan_le_acc t ms acc) (by omega)
    · rcases hf0 : listFind? m0 t with _ | p0
      · simpa only [markerScan, hf0] using ih acc m p hm2 hf
      · simp only [markerScan, hf0]
        exact ih _ m p hm2 hf

lemma markerScan_acc_or_found (t : List Char) :
    ∀ ms acc, markerScan t ms acc = acc ∨
      ∃ m ∈ ms, listFind? m t = some (markerScan t ms acc) := by
  intro ms
  induction ms with
  | nil => intro acc; exact Or.inl rfl
  | cons m0 ms ih =>
    intro acc
    rcases hf0 : listFind? m0 t with _ | p0
    · simp only [markerScan, hf0]
      rcases ih acc with h | ⟨m, hm, hf⟩
      · exact Or.inl h
      · exact Or.inr ⟨m, List.mem_cons_of_mem m0 hm, hf⟩
    · simp only [markerScan, hf0]
      by_cases hp : p0 < acc
      · rw [if_pos hp]
        rcases ih p0 with h | ⟨m, hm, hf⟩
        · refine Or.inr ⟨m0, List.mem_cons_self m0 ms, ?_⟩
          rw [h]
          exact hf0
        · exact Or.inr ⟨m, List.mem_cons_of_mem m0 hm, hf⟩
      · rw [if_neg hp]
        rcases ih acc with h | ⟨m, hm, hf⟩
        · exact Or.inl h
        · exact Or.inr ⟨m, List.mem_cons_of_mem m0 hm, hf⟩

lemma fastMarkers_ne_nil : ∀ mk ∈ fastMarkers, mk ≠ [] := by decide

lemma fastMarkerMin_lt_of_occurs {text : List Char}
    (h : ∃ mk ∈ fastMarkers, ∃ q, occursAt mk text q) :
    fastMarkerMin text < text.length + 1 := by
  obtain ⟨mk, hmem, q, hq⟩ := h
  obtain ⟨i, hfi, _⟩ := occursAt_listFind? mk text q hq
  have hlt : i < text.length :=
    occursAt_lt_length (fastMarkers_ne_nil mk hmem) (listFind?_occursAt mk text i hfi)
  have hle := markerScan_le_found text fastMarkers (text.length + 1) mk i hmem hfi
  unfold fastMarkerMin
  omega

lemma fastMarkerMin_le_occurs {text : List Char} (mk : List Char)
    (hmem : mk ∈ fastMarkers) (q : Nat) (hq : occursAt mk text q) :
    fastMarkerMin text ≤ q := by
  obtain ⟨i, hfi, hle⟩ := occursAt_listFind? mk text q hq
  have := markerScan_le_found text fastMarkers (text.length + 1) mk i hmem hfi
  unfold fastMarkerMin
  omega

lemma fastMarkerMin_is_occurs {text : List Char}
    (hlt : fastMarkerMin text < text.length + 1) :
    ∃ mk ∈ fastMarkers, occursAt mk text (fastMarkerMin text) := by
  rcases markerScan_acc_or_found text fastMarkers (text.length + 1) with h | ⟨mk, hm, hf⟩
  · rw [fastMarkerMin, h] at hlt
    omega
  · exact ⟨mk, hm, listFind?_occursAt mk text _ hf⟩

lemma findFirstDivider_fast {text : List Char} (hlen : 10 ≤ text.length)
    (hcap : text.length ≤ 10000)
    (hex : listFind? exactReplyMarker text = none)
    (hlt : fastMarkerMin text < text.length + 1) :
    findFirstDivider text = some (fastMarkerMin text) := by
  simp only [findFirstDivider]
  rw [if_neg (by omega), List.take_of_length_le hcap, hex]
  dsimp only
  rw [if_pos hlt]

lemma dropWhile_self_idem (p : Char → Bool) (l : List Char) :
    (l.dropWhile p).dropWhile p = l.dropWhile p := by
  induction l with
  | nil => rfl
  | cons a t ih =>
    by_cases h : p a
    · simp [List.dropWhile_cons, h, ih]
    · simp [List.dropWhile_cons, h]

lemma getLast?_dropWhile (p : Char → Bool) :
    ∀ (l : List Char), l.dropWhile p ≠ [] →
      (l.dropWhile p).getLast? = l.getLast? := by
  intro l
  induction l with
  | nil => intro hne; simp [List.dropWhile] at hne
  | cons a t ih =>
    intro hne
    by_cases h : p a
    · rw [List.dropWhile_cons, if_pos h]
      rw [List.dropWhile_cons, if_pos h] at hne
      have ht : t ≠ [] := by
        intro h2
        subst h2
        simp [List.dropWhile] at hne
      obtain ⟨b, t2, rfl⟩ := List.exists_cons_of_ne_nil ht
      rw [List.getLast?_cons_cons]
      exact ih hne
    · rw [List.dropWhile_cons, if_neg h]

lemma head?_dropWhile_false (p : Char → Bool) (l : List Char) (x : Char)
    (h : (l.dropWhile p).head? = some x) : p x = false := by
  have := List.head?_dropWhile_not p l
  rw [h] at this
  exact this

lemma dropWhile_eq_self_of_head (p : Char → Bool) (l : List Char)
    (h : ∀ x, l.head? = some x → p x = false) : l.dropWhile p = l := by
  cases l with
  | nil => rfl
  | cons a t =>
    rw [List.dropWhile_cons, if_neg]
    simp [h a rfl]

lemma pyStrip_idem (s : List Char) : pyStrip (pyStrip s) = pyStrip s := by
  unfold pyStrip
  by_cases hvnil : (s.dropWhile isPySpace).reverse.dropWhile isPySpace = []
  · rw [hvnil]
    simp [List.dropWhile]
  · have hA : ((s.dropWhile isPySpace).reverse.dropWhile isPySpace).reverse.dropWhile isPySpace
        = ((s.dropWhile isPySpace).reverse.dropWhile isPySpace).reverse := by
      apply dropWhile_eq_self_of_head
      intro x hx
      rw [List.head?_reverse] at hx
      rw [getLast?_dropWhile isPySpace _ hvnil] at hx
      rw [List.getLast?_reverse] at hx
      exact head?_dropWhile_false isPySpace s x hx
    rw [hA, List.reverse_reverse, dropWhile_self_idem]

lemma convertHtml_id {text : List Char}
    (h : listContainsSub ("<".toList) text = false ∨
         listContainsSub (">".toList) text = false) :
    convertHtmlToText text = text := by
  unfold convertHtmlToText
  rcases h with h | h <;> simp at h ⊢ <;> simp [h]

lemma findFirstDivider_nil : findFirstDivider [] = none := by
  simp [findFirstDivider]

lemma cleanBody_of_divider {text : List Char} {pos : Nat}
    (hhtml : listContainsSub ("<".toList) text = false ∨
             listContainsSub (">".toList) text = false)
    (hdiv : findFirstDivider text = some pos) :
    cleanBody text = pyStrip (text.take pos) := by
  have hne : text ≠ [] := by
    intro h2
    subst h2
    rw [findFirstDivider_nil] at hdiv
    cases hdiv
  simp only [cleanBody]
  rw [if_neg (by simpa [List.isEmpty_iff] using hne)]
  rw [convertHtml_id hhtml, hdiv]
  exact pyStrip_idem _

lemma cleanBody_noDivider {text : List Char}
    (hhtml : listContainsSub ("<".toList) text = false ∨
             listContainsSub (">".toList) text = false)
    (hdiv : findFirstDivider text = none) :
    cleanBody text = pyStrip text := by
  rcases eq_or_ne text [] with rfl | hne
  · rfl
  · simp only [cleanBody]
    rw [if_neg (by simpa [List.isEmpty_iff] using hne)]
    rw [convertHtml_id hhtml, hdiv]

/-- C2 (counterexample): the earliest recognized divider marker is not
always the cut point.  In fxC2Body the fast marker "\nFrom:" occurs at
position 15 (and the divider pattern "From:" followed by a newline matches
at position 16), but the exact reply marker "wrote:\nPrevious message",
checked first by _find_first_divider regardless of position, is found at
41, so clean keeps text at and after position 15 — the cleaned body still
contains the From: header block, contradicting the claim that no text at
or after the earliest marker survives. -/
theorem C2_counterexample :
    ("\nFrom:".toList) ∈ fastMarkers ∧
    occursAt ("\nFrom:".toList) fxC2Body 15 ∧
    PyPattern.search (.plain (.cat (litCI "From:") (chrLit '\n'))) fxC2Body = some 16 ∧
    listFind? exactReplyMarker fxC2Body = some 41 ∧
    cleanBody fxC2Body = ("Hello team here\nFrom:\nOld stuff somebody".toList) ∧
    15 < (cleanBody fxC2Body).length := by
  refine ⟨by decide, by decide, by decide, by decide, by decide, by decide⟩

/-- C2 (amended): for plain (non-HTML) bodies of at least 10 and at most
10000 characters in which the exact reply marker "wrote:\nPrevious
message" does not occur and at least one fast divider marker occurs,
clean(body) keeps exactly the text strictly before the earliest fast-marker
occurrence, trimmed of surrounding whitespace: the cut position is itself a
fast-marker occurrence and is at or before every fast-marker occurrence.
If no divider is found at all, the entire normalized text is kept (up to
trimming).  The exact reply marker, when present, takes precedence over
earlier markers, and markers found only by the regular-expression fallback
are cut at the first matching pattern in list order — in those cases the
cut need not be at the earliest recognized marker.  Scenario A holds as
specified. -/
theorem C2_divider_amended :
    (∀ text : List Char,
      (listContainsSub ("<".toList) text = false ∨
       listContainsSub (">".toList) text = false) →
      10 ≤ text.length → text.length ≤ 10000 →
      listFind? exactReplyMarker text = none →
      (∃ mk ∈ fastMarkers, ∃ q, occursAt mk text q) →
      cleanBody text = pyStrip (text.take (fastMarkerMin text)) ∧
      (∃ mk ∈ fastMarkers, occursAt mk text (fastMarkerMin text)) ∧
      (∀ mk ∈ fastMarkers, ∀ q, occursAt mk text q → fastMarkerMin text ≤ q)) ∧
    (∀ text : List Char,
      (listContainsSub ("<".toList) text = false ∨
       listContainsSub (">".toList) text = false) →
      findFirstDivider text = none →
      cleanBody text = pyStrip text) ∧
    cleanBody fxScenABody = ("Hi,\nPlease send the report by Friday.".toList) := by
  refine ⟨?_, ?_, by decide⟩
  · intro text hhtml hlen hcap hex hfm
    have hlt := fastMarkerMin_lt_of_occurs hfm
    have hdiv := findFirstDivider_fast hlen hcap hex hlt
    exact ⟨cleanBody_of_divider hhtml hdiv, fastMarkerMin_is_occurs hlt,
      fun mk hm q hq => fastMarkerMin_le_occurs mk hm q hq⟩
  · intro text hhtml hdiv
    exact cleanBody_noDivider hhtml hdiv

/-- C2 (witness): the amended theorem applied to the Scenario A body,
whose earliest fast marker is "\nFrom:" at position 37. -/
theorem C2_witness :
    cleanBody fxScenABody = pyStrip (fxScenABody.take (fastMarkerMin fxScenABody)) :=
  (C2_divider_amended.1 fxScenABody (Or.inl (by decide)) (by decide) (by decide)
    (by decide) ⟨"\nFrom:".toList, by decide, 37, by decide⟩).1

/-- C6 (counterexample): a plain-text body with no tag-like substrings is
not always returned unchanged by clean: surrounding whitespace is
stripped.  (Bodies containing a divider marker are truncated as well, per
C2.)  Here no divider is found — the body is even shorter than the
10-character minimum the divider search requires — yet clean trims it. -/
theorem C6_counterexample :
    listContainsSub ("<".toList) fxC6Body = false ∧
    findFirstDivider fxC6Body = none ∧
    cleanBody fxC6Body = ("hello everyone today".toList) ∧
    cleanBody fxC6Body ≠ fxC6Body := by
  refine ⟨by decide, by decide, by decide, by decide⟩

/-- C6 (amended): for plain-text bodies without HTML markers the
HTML-normalization stage is the identity (fast path), and clean(body)
equals body stripped of leading/trailing whitespace whenever no divider
marker is found; consequently clean(body) = body exactly on such bodies
that are additionally already trimmed. -/
theorem C6_fast_path_amended :
    (∀ text : List Char,
      (listContainsSub ("<".toList) text = false ∨
       listContainsSub (">".toList) text = false) →
      convertHtmlToText text = text) ∧
    (∀ text : List Char,
      (listContainsSub ("<".toList) text = false ∨
       listContainsSub (">".toList) text = false) →
      findFirstDivider text = none →
      cleanBody text = pyStrip text) ∧
    (∀ text : List Char,
      (listContainsSub ("<".toList) text = false ∨
       listContainsSub (">".toList) text = false) →
      findFirstDivider text = none →
      pyStrip text = text →
      cleanBody text = text) := by
  refine ⟨fun text h => convertHtml_id h, fun text h hdiv => cleanBody_noDivider h hdiv, ?_⟩
  intro text h hdiv hstrip
  rw [cleanBody_noDivider h hdiv, hstrip]

/-- C6 (witness): the amended theorem applied to a short trimmed
plain-text body, which clean returns unchanged. -/
theorem C6_witness :
    cleanBody ("hi all".toList) = ("hi all".toList) :=
  C6_fast_path_amended.2.2 ("hi all".toList) (Or.inl (by decide)) (by decide) (by decide)
